/-
Verification of the greenearth-ingex ingestion pipeline against its
natural-language specification.

The Go sources are shallowly embedded:
* `state.go` (`StateManager`): the in-memory map is an association list
  with unique keys; the persisted JSON snapshot is the list of entries;
  wall-clock timestamps are `Nat` values passed explicitly; the result of
  `os.WriteFile` is an explicit `writeOk : Bool` parameter.
* `message.go` / `main.go`: JSON values decoded by `encoding/json` are an
  inductive `Json`; a failed `json.Unmarshal` is the `Option.none` input.
  A Go `float32` is represented by its IEEE-754 bit pattern (a `Nat`
  below `2 ^ 32`); the Go conversion `float32(u)` of a `uint32` is the
  executable rounding function `natToFloat32Bits`.
* `elasticsearch.go`: the HTTP transport is a function argument; the
  list of bulk requests actually handed to the transport is returned
  alongside the `error` result, so "issues no network call" is the
  statement that this list is empty.
* spooler (`discoverFiles` / `processFiles` / `processDatabase`): the
  cancellable context is modelled by a poll budget `c`: the k-th
  cancellation check (0-indexed) reports "cancelled" exactly when
  `c ≤ k`.
-/
import Mathlib

namespace GreenEarth

/-! ## state.go: StateManager -/

inductive FileStatus where
  | processed
  | failed
  deriving DecidableEq, Repr

structure FileStateEntry where
  filename  : String
  status    : FileStatus
  timestamp : Nat
  error     : String
  deriving DecidableEq, Repr

/-- The in-memory `map[string]FileStateEntry`, as an association list. -/
abbrev StateMap := List (String × FileStateEntry)

/-- Go map read `sm.state[filename]`. -/
def mapGet? (m : StateMap) (k : String) : Option FileStateEntry :=
  match m with
  | [] => none
  | (k', v) :: rest => if k' = k then some v else mapGet? rest k

/-- Go map write `sm.state[filename] = entry`: replace the binding if the
key is present, append otherwise. -/
def mapPut (m : StateMap) (k : String) (v : FileStateEntry) : StateMap :=
  match m with
  | [] => [(k, v)]
  | (k', v') :: rest =>
      if k' = k then (k, v) :: rest else (k', v') :: mapPut rest k v

/-- Invariant of the Go map as used by `state.go`: keys are pairwise
distinct, and every entry is stored under its own `Filename` (all writes
are `sm.state[e.Filename] = e`). -/
structure StateWF (m : StateMap) : Prop where
  nodup : (m.map Prod.fst).Nodup
  consistent : ∀ p ∈ m, (p : String × FileStateEntry).2.filename = p.1

/-- `saveStateUnsafe` / `SaveState`: serialise the map as the list of its
entries (iteration order is the list order). -/
def entriesOf (m : StateMap) : List FileStateEntry :=
  m.map Prod.snd

/-- `LoadState` body: fold the persisted entry list into a fresh map, the
latest entry for a filename winning (`sm.state[entry.Filename] = entry`). -/
def loadEntries (entries : List FileStateEntry) : StateMap :=
  entries.foldl (fun m e => mapPut m e.filename e) []

/-- `IsProcessed`. -/
def isProcessed (m : StateMap) (filename : String) : Bool :=
  match mapGet? m filename with
  | some e => e.status = FileStatus.processed
  | none => false

/-- `IsFailed`. -/
def isFailed (m : StateMap) (filename : String) : Bool :=
  match mapGet? m filename with
  | some e => e.status = FileStatus.failed
  | none => false

/-- Result of a `MarkProcessed` / `MarkFailed` call: the new in-memory
map, the persisted snapshot after the call, and the returned `error`. -/
structure MarkResult where
  memory    : StateMap
  persisted : List FileStateEntry
  result    : Except String Unit

/-- `MarkProcessed`: mutate the map, then synchronously rewrite the full
snapshot; `writeOk` is the outcome of `os.WriteFile`.  On a write failure
the error is returned but the map mutation is not rolled back. -/
def markProcessed (m : StateMap) (persisted : List FileStateEntry)
    (filename : String) (now : Nat) (writeOk : Bool) : MarkResult :=
  let m' := mapPut m filename ⟨filename, FileStatus.processed, now, ""⟩
  if writeOk then
    ⟨m', entriesOf m', Except.ok ()⟩
  else
    ⟨m', persisted, Except.error "failed to write state file"⟩

/-- `MarkFailed`: same write-through shape, recording the error text. -/
def markFailed (m : StateMap) (persisted : List FileStateEntry)
    (filename : String) (errMsg : String) (now : Nat) (writeOk : Bool) :
    MarkResult :=
  let m' := mapPut m filename ⟨filename, FileStatus.failed, now, errMsg⟩
  if writeOk then
    ⟨m', entriesOf m', Except.ok ()⟩
  else
    ⟨m', persisted, Except.error "failed to write state file"⟩

/-! Association-list lemmas. -/

theorem mapGet?_mapPut_self (m : StateMap) (k : String) (v : FileStateEntry) :
    mapGet? (mapPut m k v) k = some v := by
  induction m with
  | nil => simp [mapPut, mapGet?]
  | cons hd tl ih =>
      obtain ⟨k', v'⟩ := hd
      by_cases h : k' = k
      · simp [mapPut, mapGet?, h]
      · simp [mapPut, mapGet?, h, ih]

theorem mapGet?_mapPut_other (m : StateMap) (k k' : String)
    (v : FileStateEntry) (h : k ≠ k') :
    mapGet? (mapPut m k v) k' = mapGet? m k' := by
  induction m with
  | nil => simp [mapPut, mapGet?, h]
  | cons hd tl ih =>
      obtain ⟨k₀, v₀⟩ := hd
      by_cases h₀ : k₀ = k
      · subst h₀
        simp [mapPut, mapGet?, h]
      · simp [mapPut, mapGet?, h₀, ih]

theorem mapGet?_eq_none_of_not_mem (m : StateMap) (k : String) :
    k ∉ m.map Prod.fst → mapGet? m k = none := by
  induction m with
  | nil => intro _; rfl
  | cons hd tl ih =>
      obtain ⟨k₀, v₀⟩ := hd
      intro h
      have hk : ¬ k₀ = k := by
        intro he; exact h (by simp [he])
      have h2 : k ∉ tl.map Prod.fst := by
        intro hm; exact h (by simp [hm])
      simp [mapGet?, hk, ih h2]

theorem mapPut_keys (m : StateMap) (k : String) (v : FileStateEntry) :
    ((mapPut m k v).map Prod.fst) =
      if k ∈ m.map Prod.fst then m.map Prod.fst else m.map Prod.fst ++ [k] := by
  induction m with
  | nil => simp [mapPut]
  | cons hd tl ih =>
      obtain ⟨k₀, v₀⟩ := hd
      by_cases h₀ : k₀ = k
      · subst h₀
        simp [mapPut]
      · have hne : ¬ k = k₀ := fun h => h₀ h.symm
        simp only [mapPut, if_neg h₀, List.map_cons, ih, List.mem_cons, hne,
          false_or]
        by_cases hmem : k ∈ tl.map Prod.fst <;> simp [hmem]

theorem mem_mapPut {m : StateMap} {k : String} {v : FileStateEntry}
    {p : String × FileStateEntry} : p ∈ mapPut m k v → p = (k, v) ∨ p ∈ m := by
  induction m with
  | nil => intro h; simpa [mapPut] using h
  | cons hd tl ih =>
      obtain ⟨k₀, v₀⟩ := hd
      intro h
      by_cases h₀ : k₀ = k
      · subst h₀
        rw [show mapPut ((k₀, v₀) :: tl) k₀ v = (k₀, v) :: tl by
          simp [mapPut]] at h
        rcases List.mem_cons.mp h with h | h
        · exact Or.inl h
        · exact Or.inr (List.mem_cons_of_mem _ h)
      · rw [show mapPut ((k₀, v₀) :: tl) k v = (k₀, v₀) :: mapPut tl k v by
          simp [mapPut, h₀]] at h
        rcases List.mem_cons.mp h with h | h
        · exact Or.inr (List.mem_cons.mpr (Or.inl h))
        · rcases ih h with h' | h'
          · exact Or.inl h'
          · exact Or.inr (List.mem_cons_of_mem _ h')

theorem StateWF_mapPut {m : StateMap} (h : StateWF m) (k : String)
    (v : FileStateEntry) (hv : v.filename = k) : StateWF (mapPut m k v) := by
  constructor
  · rw [mapPut_keys]
    by_cases hmem : k ∈ m.map Prod.fst
    · simpa [hmem] using h.nodup
    · simp only [hmem, if_false]
      refine List.Nodup.append h.nodup (List.nodup_singleton k) ?_
      intro a ha hak
      rw [List.mem_singleton] at hak
      subst hak
      exact hmem ha
  · intro p hp
    rcases mem_mapPut hp with rfl | hp'
    · exact hv
    · exact h.consistent p hp'

/-- The entry for `k` surviving a `LoadState` replay: the last entry of
the list whose `Filename` is `k`. -/
def lastEntryFor (entries : List FileStateEntry) (k : String) :
    Option FileStateEntry :=
  match entries with
  | [] => none
  | e :: rest =>
      match lastEntryFor rest k with
      | some e' => some e'
      | none => if e.filename = k then some e else none

theorem mapGet?_foldl_mapPut (entries : List FileStateEntry)
    (acc : StateMap) (k : String) :
    mapGet? (entries.foldl (fun a e => mapPut a e.filename e) acc) k =
      match lastEntryFor entries k with
      | some e => some e
      | none => mapGet? acc k := by
  induction entries generalizing acc with
  | nil => simp [lastEntryFor]
  | cons e rest ih =>
      simp only [List.foldl_cons, ih, lastEntryFor]
      cases hrest : lastEntryFor rest k with
      | some e' => simp
      | none =>
          by_cases hk : e.filename = k
          · simp [hk, mapGet?_mapPut_self]
          · simp [hk, mapGet?_mapPut_other _ _ _ _ hk]

theorem mapGet?_loadEntries (entries : List FileStateEntry) (k : String) :
    mapGet? (loadEntries entries) k =
      match lastEntryFor entries k with
      | some e => some e
      | none => none := by
  unfold loadEntries
  rw [mapGet?_foldl_mapPut]
  cases lastEntryFor entries k <;> simp [mapGet?]

theorem lastEntryFor_entriesOf {m : StateMap} (h : StateWF m) (k : String) :
    lastEntryFor (entriesOf m) k = mapGet? m k := by
  induction m with
  | nil => rfl
  | cons hd tl ih =>
      obtain ⟨k₀, e₀⟩ := hd
      have hwf : StateWF tl :=
        ⟨(List.nodup_cons.mp h.nodup).2,
         fun p hp => h.consistent p (List.mem_cons_of_mem _ hp)⟩
      have he₀ : e₀.filename = k₀ := h.consistent (k₀, e₀) (List.mem_cons_self _ _)
      have htl : lastEntryFor (List.map Prod.snd tl) k = mapGet? tl k := ih hwf
      simp only [entriesOf, List.map_cons, lastEntryFor, htl]
      by_cases hk : k₀ = k
      · subst hk
        have hnot : k₀ ∉ tl.map Prod.fst := (List.nodup_cons.mp h.nodup).1
        have hnone : mapGet? tl k₀ = none := mapGet?_eq_none_of_not_mem tl k₀ hnot
        rw [hnone]
        simp [mapGet?, he₀]
      · have hne : e₀.filename ≠ k := by rw [he₀]; exact hk
        cases hget : mapGet? tl k with
        | some e' => simp [mapGet?, hk, hget]
        | none => simp [mapGet?, hk, hne, hget]

/-- Reloading the serialised snapshot of a well-formed map reproduces
every lookup. -/
theorem mapGet?_reload {m : StateMap} (h : StateWF m) (k : String) :
    mapGet? (loadEntries (entriesOf m)) k = mapGet? m k := by
  rw [mapGet?_loadEntries, lastEntryFor_entriesOf h]
  cases mapGet? m k <;> simp

/-- C5: after a successful `MarkProcessed(F)`, `IsProcessed(F)` holds and
`IsFailed(F)` does not, and both survive a reload of the persisted
snapshot; after a successful `MarkFailed(F, e)` a reload yields
`IsFailed(F)` with the stored error text `e`. -/
theorem markProcessed_then_reload (m : StateMap)
    (persisted : List FileStateEntry) (F : String) (errMsg : String)
    (now : Nat) (hwf : StateWF m) :
    (markProcessed m persisted F now true).result = Except.ok () ∧
    isProcessed (markProcessed m persisted F now true).memory F = true ∧
    isFailed (markProcessed m persisted F now true).memory F = false ∧
    isProcessed (loadEntries (markProcessed m persisted F now true).persisted)
      F = true ∧
    isFailed (loadEntries (markProcessed m persisted F now true).persisted)
      F = false ∧
    isFailed (loadEntries (markFailed m persisted F errMsg now true).persisted)
      F = true ∧
    (mapGet? (loadEntries (markFailed m persisted F errMsg now true).persisted)
      F).map FileStateEntry.error = some errMsg := by
  have hwfP := StateWF_mapPut hwf F ⟨F, FileStatus.processed, now, ""⟩ rfl
  have hwfF := StateWF_mapPut hwf F ⟨F, FileStatus.failed, now, errMsg⟩ rfl
  have hgetP := mapGet?_mapPut_self m F ⟨F, FileStatus.processed, now, ""⟩
  have hgetF := mapGet?_mapPut_self m F ⟨F, FileStatus.failed, now, errMsg⟩
  have hreP := mapGet?_reload hwfP F
  have hreF := mapGet?_reload hwfF F
  refine ⟨rfl, ?_, ?_, ?_, ?_, ?_, ?_⟩ <;>
    simp [markProcessed, markFailed, isProcessed, isFailed, hgetP, hgetF,
      hreP, hreF]

/-- C5 witness: concrete instance on the empty store. -/
theorem markProcessed_then_reload_witness :
    isProcessed (markProcessed [] [] "test_file.db.zip" 7 true).memory
      "test_file.db.zip" = true ∧
    isFailed
      (loadEntries
        (markFailed [] [] "test_file.db.zip" "x" 7 true).persisted)
      "test_file.db.zip" = true := by
  have h := markProcessed_then_reload [] [] "test_file.db.zip" "x" 7
    ⟨List.nodup_nil, by intro p hp; cases hp⟩
  exact ⟨h.2.1, h.2.2.2.2.2.1⟩

/-- C10: if the synchronous snapshot write inside `MarkProcessed` or
`MarkFailed` fails, the call returns an error, yet the in-memory map
already holds the new entry (no rollback), so in-process
`IsProcessed`/`IsFailed` report the new status while the persisted
snapshot is left unchanged. -/
theorem mark_write_failure_not_rolled_back (m : StateMap)
    (persisted : List FileStateEntry) (F : String) (errMsg : String)
    (now : Nat) :
    (markProcessed m persisted F now false).result =
      Except.error "failed to write state file" ∧
    isProcessed (markProcessed m persisted F now false).memory F = true ∧
    (markProcessed m persisted F now false).persisted = persisted ∧
    (markFailed m persisted F errMsg now false).result =
      Except.error "failed to write state file" ∧
    isFailed (markFailed m persisted F errMsg now false).memory F = true ∧
    (markFailed m persisted F errMsg now false).persisted = persisted := by
  have hgetP := mapGet?_mapPut_self m F ⟨F, FileStatus.processed, now, ""⟩
  have hgetF := mapGet?_mapPut_self m F ⟨F, FileStatus.failed, now, errMsg⟩
  refine ⟨rfl, ?_, rfl, rfl, ?_, rfl⟩ <;>
    simp [markProcessed, markFailed, isProcessed, isFailed, hgetP, hgetF]

/-! ## JSON values

`encoding/json` decoding into `map[string]interface{}` is embedded as an
inductive value; a failed `json.Unmarshal` is the `none` input of the
parse functions.  JSON numbers in the ingested data are integers below
`2 ^ 53`, for which the Go `float64` round-trip and the `int64(·)` cast
are exact, so numbers are carried as `Int`. -/

inductive Json where
  | null
  | bool (b : Bool)
  | num (n : Int)
  | str (s : String)
  | arr (elems : List Json)
  | obj (fields : List (String × Json))

/-- Go type assertion `.(map[string]interface{})`. -/
def Json.objFields : Json → Option (List (String × Json))
  | .obj fs => some fs
  | _ => none

/-- Lookup in a decoded JSON object (keys are unique in the ingested
payloads, so first-match lookup agrees with the Go map). -/
def jsonLookup (fs : List (String × Json)) (k : String) : Option Json :=
  match fs with
  | [] => none
  | (k', v) :: rest => if k' = k then some v else jsonLookup rest k

/-- `m[k].(map[string]interface{})` with its `ok` flag. -/
def lookupObj (fs : List (String × Json)) (k : String) :
    Option (List (String × Json)) :=
  (jsonLookup fs k).bind Json.objFields

/-- `m[k].(string)` with its `ok` flag. -/
def lookupStr (fs : List (String × Json)) (k : String) : Option String :=
  match jsonLookup fs k with
  | some (.str s) => some s
  | _ => none

/-- `m[k].(float64)` with its `ok` flag. -/
def lookupNum (fs : List (String × Json)) (k : String) : Option Int :=
  match jsonLookup fs k with
  | some (.num n) => some n
  | _ => none

/-! ## message.go: base64 and float32 decoding

A Go `float32` is represented by its IEEE-754 bit pattern (a `Nat` below
`2 ^ 32`). -/

/-- Value of one character of the standard base64 alphabet. -/
def base64Val (c : Char) : Option Nat :=
  if 'A' ≤ c ∧ c ≤ 'Z' then some (c.toNat - 65)
  else if 'a' ≤ c ∧ c ≤ 'z' then some (c.toNat - 97 + 26)
  else if '0' ≤ c ∧ c ≤ '9' then some (c.toNat - 48 + 52)
  else if c = '+' then some 62
  else if c = '/' then some 63
  else none

/-- Decode base64 text four characters at a time, as
`base64.StdEncoding` does: the input length must be a multiple of four,
`=` padding may close the final quantum, and any other character outside
the alphabet is an error. -/
def base64DecodeGroups : List Char → Option (List Nat)
  | [] => some []
  | a :: b :: c :: d :: rest =>
      match base64Val a, base64Val b with
      | some va, some vb =>
          if c = '=' then
            if d = '=' ∧ rest = [] then some [va * 4 + vb / 16] else none
          else
            match base64Val c with
            | some vc =>
                if d = '=' then
                  if rest = [] then
                    some [va * 4 + vb / 16, (vb % 16) * 16 + vc / 4]
                  else none
                else
                  match base64Val d, base64DecodeGroups rest with
                  | some vd, some tail =>
                      some ((va * 4 + vb / 16) :: ((vb % 16) * 16 + vc / 4) ::
                        ((vc % 4) * 64 + vd) :: tail)
                  | _, _ => none
            | none => none
      | _, _ => none
  | _ => none

/-- `base64.StdEncoding.DecodeString`: newline characters are skipped,
then the text is decoded in quanta of four. -/
def base64Decode (s : String) : Option (List Nat) :=
  base64DecodeGroups (s.toList.filter (fun c => c ≠ '\n' ∧ c ≠ '\r'))

/-- Floor of the base-2 logarithm, by structural recursion on a fuel
argument so that it reduces inside the kernel (40 halvings cover every
`uint32`). -/
def log2Fuel : Nat → Nat → Nat
  | 0, _ => 0
  | fuel + 1, n => if n ≤ 1 then 0 else log2Fuel fuel (n / 2) + 1

/-- The Go conversion `float32(u)` of a `uint32` value: IEEE-754 binary32
rounding to nearest, ties to even, returned as the bit pattern of the
resulting float.  Every `uint32` is far below the binary32 overflow
threshold, so the exponent never saturates. -/
def natToFloat32Bits (n : Nat) : Nat :=
  if n = 0 then 0
  else
    let e := log2Fuel 40 n
    if e ≤ 23 then
      (e + 127) * 2 ^ 23 + (n * 2 ^ (23 - e) - 2 ^ 23)
    else
      let shift := e - 23
      let q := n / 2 ^ shift
      let r := n % 2 ^ shift
      let q' := if r * 2 > 2 ^ shift ∨ (r * 2 = 2 ^ shift ∧ q % 2 = 1)
                then q + 1 else q
      if q' = 2 ^ 24 then (e + 128) * 2 ^ 23
      else (e + 127) * 2 ^ 23 + (q' - 2 ^ 23)

/-- `binary.LittleEndian.Uint32(decoded[i*4 : (i+1)*4])`. -/
def leUint32 (bytes : List Nat) (i : Nat) : Nat :=
  bytes.getD (4 * i) 0 + 256 * bytes.getD (4 * i + 1) 0 +
    65536 * bytes.getD (4 * i + 2) 0 + 16777216 * bytes.getD (4 * i + 3) 0

/-- `decodeEmbedding` as written in `message.go` / `main.go`: base64
decode, then for every 4-byte little-endian group take the `uint32`
value `bits` and store `float32(bits)` — the numeric conversion of the
integer, not a reinterpretation of its bits. -/
def decodeEmbedding (encoded : String) : Except String (List Nat) :=
  match base64Decode encoded with
  | none => Except.error "base64 decode failed"
  | some bytes =>
      Except.ok ((List.range (bytes.length / 4)).map fun i =>
        natToFloat32Bits (leUint32 bytes i))

/-- Modelled from the spec (§4.3): "decode to bytes, then interpret every
4-byte little-endian group as one 32-bit float" — the component is the
float whose bit pattern is the group itself.  Stated only to compare with
`decodeEmbedding` above. -/
def decodeEmbeddingSpec (encoded : String) : Except String (List Nat) :=
  match base64Decode encoded with
  | none => Except.error "base64 decode failed"
  | some bytes =>
      Except.ok ((List.range (bytes.length / 4)).map fun i => leUint32 bytes i)

/-! ## message.go: megaStreamMessage -/

structure MegaStreamMsg where
  atURI            : String
  did              : String
  content          : String
  createdAt        : String
  threadRootPost   : String
  threadParentPost : String
  quotePost        : String
  embeddings       : List (String × List Nat)
  timeUs           : Int
  isDelete         : Bool
  parseError       : Bool
  deriving Repr

/-- The struct literal at the top of `NewMegaStreamMessage`. -/
def newMsgInit (atURI did : String) : MegaStreamMsg :=
  ⟨atURI, did, "", "", "", "", "", [], 0, false, false⟩

/-- `parseRawPost`: extract time, delete flag, record text/createdAt and
the three optional thread references from the decoded `raw_post` JSON.
The argument is the outcome of `json.Unmarshal` (`none` = parse error or
non-object payload, which sets `parseError` and leaves the fields at
their zero values). -/
def parseRawPost (m : MegaStreamMsg) (rawPost? : Option Json) :
    MegaStreamMsg :=
  match rawPost? with
  | none => { m with parseError := true }
  | some j =>
    match j.objFields with
    | none => { m with parseError := true }
    | some rawPost =>
      match lookupObj rawPost "message" with
      | none => m
      | some message =>
        let m1 := match lookupNum message "time_us" with
                  | some t => { m with timeUs := t }
                  | none => m
        match lookupObj message "commit" with
        | none => m1
        | some commit =>
          if (lookupStr commit "operation").getD "" = "delete" then
            { m1 with isDelete := true }
          else
            match lookupObj commit "record" with
            | none => m1
            | some record =>
              let m2 := { m1 with
                content := (lookupStr record "text").getD "",
                createdAt := (lookupStr record "createdAt").getD "" }
              match lookupObj rawPost "hydrated_metadata" with
              | none => m2
              | some hm =>
                let m3 := match lookupObj hm "reply_post" with
                  | some rp =>
                      { m2 with threadRootPost := (lookupStr rp "uri").getD "" }
                  | none => m2
                let m4 := match lookupObj hm "parent_post" with
                  | some pp =>
                      { m3 with
                        threadParentPost := (lookupStr pp "uri").getD "" }
                  | none => m3
                match lookupObj hm "quote_post" with
                | some qp => { m4 with quotePost := (lookupStr qp "uri").getD "" }
                | none => m4

/-- `parseInferences`: pull the two named embeddings out of the decoded
`inferences` JSON; a decode failure drops only that embedding. -/
def parseInferences (m : MegaStreamMsg) (inferences? : Option Json) :
    MegaStreamMsg :=
  match inferences? with
  | none => m
  | some j =>
    match j.objFields with
    | none => m
    | some inferences =>
      match lookupObj inferences "text_embeddings" with
      | none => m
      | some te =>
        let m1 := match lookupStr te "all-MiniLM-L12-v2" with
          | some enc =>
              match decodeEmbedding enc with
              | Except.ok dec =>
                  { m with
                    embeddings := m.embeddings ++ [("all_MiniLM_L12_v2", dec)] }
              | Except.error _ => m
          | none => m
        match lookupStr te "all-MiniLM-L6-v2" with
        | some enc =>
            match decodeEmbedding enc with
            | Except.ok dec =>
                { m1 with
                  embeddings := m1.embeddings ++ [("all_MiniLM_L6_v2", dec)] }
            | Except.error _ => m1
        | none => m1

/-- `NewMegaStreamMessage`. -/
def newMegaStreamMessage (atURI did : String)
    (rawPost? inferences? : Option Json) : MegaStreamMsg :=
  parseInferences (parseRawPost (newMsgInit atURI did) rawPost?) inferences?

/-! ## elasticsearch.go

Wall-clock instants (`time.Now().UTC()`) are `Nat` nanosecond timestamps
passed explicitly; the RFC3339 rendering is injective on distinct
seconds and plays no role in the claims, so documents carry the instant
itself. -/

structure ElasticsearchDoc where
  atURI            : String
  authorDID        : String
  content          : String
  createdAt        : String
  threadRootPost   : String
  threadParentPost : String
  quotePost        : String
  embeddings       : List (String × List Nat)
  indexedAt        : Nat
  deriving DecidableEq, Repr

/-- `TombstoneDoc` as declared in `src/ingest/elasticsearch.go`: three
fields only. -/
structure TombstoneDoc where
  atURI     : String
  authorDID : String
  deletedAt : Nat
  deriving DecidableEq, Repr

/-- `CreateElasticsearchDoc`; `now` is the `time.Now()` instant. -/
def CreateElasticsearchDoc (msg : MegaStreamMsg) (now : Nat) :
    ElasticsearchDoc :=
  ⟨msg.atURI, msg.did, msg.content, msg.createdAt, msg.threadRootPost,
   msg.threadParentPost, msg.quotePost, msg.embeddings, now⟩

/-- `CreateTombstoneDoc`; `now` is the `time.Now()` instant.  The body
sets `DeletedAt` from the wall clock; `msg.GetTimeUs()` is not read. -/
def CreateTombstoneDoc (msg : MegaStreamMsg) (now : Nat) : TombstoneDoc :=
  ⟨msg.atURI, msg.did, now⟩

/-- One invocation of `client.Bulk` — a network call, identified by the
action kind, the target index and its payload. -/
inductive EsCall where
  | bulkIndexReq (index : String) (docs : List ElasticsearchDoc)
  | bulkTombstoneReq (index : String) (docs : List TombstoneDoc)
  | bulkDeleteReq (index : String) (ids : List String)
  deriving DecidableEq, Repr

/-- One entry of a bulk-response item map: the optional error object
(type, reason) and the HTTP status. -/
structure BulkItemDetails where
  error  : Option (String × String)
  status : Int
  deriving DecidableEq, Repr

/-- Decoded bulk-response body plus the HTTP-level `res.IsError()` flag.
Each item is the list of values of its one-key map. -/
structure BulkResponse where
  isError : Bool
  errors  : Bool
  items   : List (List BulkItemDetails)
  deriving Repr

/-- The inner scan of `bulkDelete`: an item error is "real" unless its
status is 404. -/
def hasRealErrors (items : List (List BulkItemDetails)) : Bool :=
  items.any fun item => item.any fun d => d.error.isSome && d.status ≠ 404

/-- `bulkIndex`: the transport is a function from the issued request to
the response (`none` = transport failure); the list of issued requests
is returned so that "no network call" is `= []`. -/
def bulkIndex (index : String) (docs : List ElasticsearchDoc)
    (dryRun : Bool) (transport : EsCall → Option BulkResponse) :
    List EsCall × Except String Unit :=
  if docs = [] then ([], Except.ok ())
  else if dryRun then ([], Except.ok ())
  else
    let valid := docs.filter fun d => d.atURI ≠ ""
    if valid = [] then ([], Except.error "no valid documents in batch")
    else
      let req := EsCall.bulkIndexReq index valid
      match transport req with
      | none => ([req], Except.error "bulk request failed")
      | some res =>
          if res.isError then ([req], Except.error "bulk request returned error")
          else if res.errors then
            ([req], Except.error
              "bulk indexing failed: some documents had errors (see logs for details)")
          else ([req], Except.ok ())

/-- `bulkIndexTombstones`: identical shape against the tombstone index. -/
def bulkIndexTombstones (index : String) (docs : List TombstoneDoc)
    (dryRun : Bool) (transport : EsCall → Option BulkResponse) :
    List EsCall × Except String Unit :=
  if docs = [] then ([], Except.ok ())
  else if dryRun then ([], Except.ok ())
  else
    let valid := docs.filter fun d => d.atURI ≠ ""
    if valid = [] then ([], Except.error "no valid tombstones in batch")
    else
      let req := EsCall.bulkTombstoneReq index valid
      match transport req with
      | none => ([req], Except.error "bulk tombstone request failed")
      | some res =>
          if res.isError then
            ([req], Except.error "bulk tombstone request returned error")
          else if res.errors then
            ([req], Except.error
              "bulk tombstone indexing failed: some documents had errors (see logs for details)")
          else ([req], Except.ok ())

/-- `bulkDelete`: pure delete actions; on `errors = true` only item
errors with a status other than 404 fail the call. -/
def bulkDelete (index : String) (docIDs : List String)
    (dryRun : Bool) (transport : EsCall → Option BulkResponse) :
    List EsCall × Except String Unit :=
  if docIDs = [] then ([], Except.ok ())
  else if dryRun then ([], Except.ok ())
  else
    let valid := docIDs.filter fun i => i ≠ ""
    if valid = [] then ([], Except.error "no valid document IDs in batch")
    else
      let req := EsCall.bulkDeleteReq index valid
      match transport req with
      | none => ([req], Except.error "bulk delete request failed")
      | some res =>
          if res.isError then
            ([req], Except.error "bulk delete request returned error")
          else if res.errors && hasRealErrors res.items then
            ([req], Except.error
              "bulk delete failed: some documents had errors (see logs for details)")
          else ([req], Except.ok ())

/-! ## C2: tombstone deletion timestamp -/

/-- The delete event of `TestTombstoneDoc_TimeUs` ("with time_us
present"): `message.time_us = 1757450801618621`, operation `delete`. -/
def deleteEventWithTimeUs : Json :=
  Json.obj [("message", Json.obj
    [("time_us", Json.num 1757450801618621),
     ("commit", Json.obj [("operation", Json.str "delete")])])]

/-- C2 (code_bug): the raw event carries `message.time_us`, the parsed
message exposes it, yet `CreateTombstoneDoc` stamps the tombstone with
the wall clock: for every `now` the deleted-at field equals `now`, so at
`now = 0` it differs from the microsecond timestamp converted to
nanoseconds — the conversion the claim (and the repository's own test
`TestTombstoneDoc_TimeUs`) requires. -/
theorem createTombstoneDoc_ignores_time_us :
    (newMegaStreamMessage "at://test" "did:test"
      (some deleteEventWithTimeUs) (some (Json.obj []))).timeUs =
        1757450801618621 ∧
    (newMegaStreamMessage "at://test" "did:test"
      (some deleteEventWithTimeUs) (some (Json.obj []))).isDelete = true ∧
    (∀ now : Nat,
      (CreateTombstoneDoc
        (newMegaStreamMessage "at://test" "did:test"
          (some deleteEventWithTimeUs) (some (Json.obj []))) now).deletedAt =
        now) ∧
    (CreateTombstoneDoc
      (newMegaStreamMessage "at://test" "did:test"
        (some deleteEventWithTimeUs) (some (Json.obj []))) 0).deletedAt ≠
      1757450801618621 * 1000 := by
  refine ⟨rfl, rfl, fun now => rfl, by decide⟩

/-! ## C4: embedding decoding -/

instance : DecidableEq (Except String (List Nat)) := fun a b =>
  match a, b with
  | Except.ok x, Except.ok y =>
      if h : x = y then isTrue (by rw [h]) else isFalse (by simp [h])
  | Except.error x, Except.error y =>
      if h : x = y then isTrue (by rw [h]) else isFalse (by simp [h])
  | Except.ok _, Except.error _ => isFalse (by simp)
  | Except.error _, Except.ok _ => isFalse (by simp)

/-- C4 (code_bug): `"AACAPw=="` is the base64 of the little-endian bytes
of the 32-bit float `1.0` (bit pattern `0x3F800000 = 1065353216`).  The
code computes `float32(bits)` — the numeric conversion of the `uint32`,
whose result has bit pattern `0x4E7E0000 = 1316880384` — instead of the
bit-pattern reinterpretation the claim describes
(`decodeEmbeddingSpec`). -/
theorem decodeEmbedding_not_bit_pattern :
    base64Decode "AACAPw==" = some [0, 0, 128, 63] ∧
    decodeEmbedding "AACAPw==" = Except.ok [1316880384] ∧
    decodeEmbeddingSpec "AACAPw==" = Except.ok [1065353216] ∧
    decodeEmbedding "AACAPw==" ≠ decodeEmbeddingSpec "AACAPw==" := by
  exact ⟨by decide, by decide, by decide, by decide⟩

/-! ## C6: the transformer never fails outward -/

/-- The embedding entries contributed by `parseInferences`, as a function
of the inference payload alone. -/
def embList (inferences? : Option Json) : List (String × List Nat) :=
  match inferences? with
  | none => []
  | some j =>
    match j.objFields with
    | none => []
    | some inferences =>
      match lookupObj inferences "text_embeddings" with
      | none => []
      | some te =>
        (match lookupStr te "all-MiniLM-L12-v2" with
         | some enc =>
             match decodeEmbedding enc with
             | Except.ok dec => [("all_MiniLM_L12_v2", dec)]
             | Except.error _ => []
         | none => []) ++
        (match lookupStr te "all-MiniLM-L6-v2" with
         | some enc =>
             match decodeEmbedding enc with
             | Except.ok dec => [("all_MiniLM_L6_v2", dec)]
             | Except.error _ => []
         | none => [])

theorem parseInferences_eq (m : MegaStreamMsg) (inf : Option Json) :
    parseInferences m inf =
      { m with embeddings := m.embeddings ++ embList inf } := by
  unfold parseInferences embList
  repeat' split
  all_goals simp_all

theorem parseRawPost_embeddings (m : MegaStreamMsg) (rp : Option Json) :
    (parseRawPost m rp).embeddings = m.embeddings := by
  unfold parseRawPost
  repeat' split
  all_goals simp_all

/-- Every field of `MegaStreamMsg` except the embeddings. -/
def msgCore (m : MegaStreamMsg) :
    String × String × String × String × String × String × String ×
      Int × Bool × Bool :=
  (m.atURI, m.did, m.content, m.createdAt, m.threadRootPost,
   m.threadParentPost, m.quotePost, m.timeUs, m.isDelete, m.parseError)

theorem parseInferences_msgCore (m : MegaStreamMsg) (inf : Option Json) :
    msgCore (parseInferences m inf) = msgCore m := by
  rw [parseInferences_eq]
  rfl

theorem newMegaStreamMessage_embeddings (atURI did : String)
    (rp inf : Option Json) :
    (newMegaStreamMessage atURI did rp inf).embeddings = embList inf := by
  unfold newMegaStreamMessage
  rw [parseInferences_eq]
  simp [parseRawPost_embeddings, newMsgInit]

/-- Without a `hydrated_metadata` object, `parseRawPost` leaves the
three thread references untouched. -/
theorem parseRawPost_thread_empty (m : MegaStreamMsg)
    (fs : List (String × Json))
    (hmeta : lookupObj fs "hydrated_metadata" = none) :
    (parseRawPost m (some (Json.obj fs))).threadRootPost =
      m.threadRootPost ∧
    (parseRawPost m (some (Json.obj fs))).threadParentPost =
      m.threadParentPost ∧
    (parseRawPost m (some (Json.obj fs))).quotePost = m.quotePost := by
  unfold parseRawPost
  simp only [Json.objFields]
  repeat' split
  all_goals simp_all

/-- C6: the transformer always yields a message.  The inference payload
never affects the non-embedding fields; the embeddings are a function of
the inference payload alone; a malformed event payload degrades every
extracted field to its zero value (only `parseError` is set); a missing
metadata object leaves the three thread references empty; and a base64
decode failure of the L12 embedding omits exactly that embedding while
any decodable L6 embedding — and every other field — is produced
unchanged. -/
theorem transformer_never_fails (a d : String) (rp inf : Option Json) :
    msgCore (newMegaStreamMessage a d rp inf) =
      msgCore (parseRawPost (newMsgInit a d) rp) ∧
    (newMegaStreamMessage a d rp inf).embeddings = embList inf ∧
    (rp = none →
      msgCore (newMegaStreamMessage a d rp inf) =
        (a, d, "", "", "", "", "", 0, false, true)) ∧
    (∀ fs, rp = some (Json.obj fs) →
      lookupObj fs "hydrated_metadata" = none →
      (newMegaStreamMessage a d rp inf).threadRootPost = "" ∧
      (newMegaStreamMessage a d rp inf).threadParentPost = "" ∧
      (newMegaStreamMessage a d rp inf).quotePost = "") ∧
    (∀ fs te enc e, inf = some (Json.obj fs) →
      lookupObj fs "text_embeddings" = some te →
      lookupStr te "all-MiniLM-L12-v2" = some enc →
      decodeEmbedding enc = Except.error e →
      (∀ v, ("all_MiniLM_L12_v2", v) ∉
        (newMegaStreamMessage a d rp inf).embeddings) ∧
      (∀ enc6 dec6, lookupStr te "all-MiniLM-L6-v2" = some enc6 →
        decodeEmbedding enc6 = Except.ok dec6 →
        (newMegaStreamMessage a d rp inf).embeddings =
          [("all_MiniLM_L6_v2", dec6)])) := by
  refine ⟨?_, newMegaStreamMessage_embeddings a d rp inf, ?_, ?_, ?_⟩
  · unfold newMegaStreamMessage
    exact parseInferences_msgCore _ _
  · rintro rfl
    unfold newMegaStreamMessage
    rw [parseInferences_msgCore]
    rfl
  · rintro fs rfl hmeta
    have h3 := parseRawPost_thread_empty (newMsgInit a d) fs hmeta
    unfold newMegaStreamMessage
    rw [parseInferences_eq]
    simp only
    rw [h3.1, h3.2.1, h3.2.2]
    exact ⟨rfl, rfl, rfl⟩
  · rintro fs te enc e rfl hte hl12 herr
    have he : (newMegaStreamMessage a d rp (some (Json.obj fs))).embeddings =
        embList (some (Json.obj fs)) :=
      newMegaStreamMessage_embeddings a d rp _
    constructor
    · intro v hv
      rw [he] at hv
      unfold embList at hv
      simp only [Json.objFields, hte, hl12, herr] at hv
      revert hv
      repeat' split
      all_goals simp_all
    · intro enc6 dec6 hl6 hdec6
      rw [he]
      unfold embList
      simp [Json.objFields, hte, hl12, herr, hl6, hdec6]

/-- The inference payload of the C6 witness: an undecodable L12
embedding next to a decodable L6 embedding. -/
def badL12Inferences : Json :=
  Json.obj [("text_embeddings", Json.obj
    [("all-MiniLM-L12-v2", Json.str "!!!!"),
     ("all-MiniLM-L6-v2", Json.str "AACAPw==")])]

/-- C6 witness: a row with a malformed event payload and a broken L12
embedding still yields a record: zero content fields, `parseError` set,
and exactly the L6 embedding. -/
theorem transformer_never_fails_witness :
    (newMegaStreamMessage "at://w" "did:w" none
        (some badL12Inferences)).embeddings =
      [("all_MiniLM_L6_v2", [1316880384])] ∧
    msgCore (newMegaStreamMessage "at://w" "did:w" none
        (some badL12Inferences)) =
      ("at://w", "did:w", "", "", "", "", "", 0, false, true) := by
  have h := transformer_never_fails "at://w" "did:w" none
    (some badL12Inferences)
  refine ⟨?_, h.2.2.1 rfl⟩
  exact (h.2.2.2.2 _ _ "!!!!" "base64 decode failed" rfl rfl rfl
    (by decide)).2 "AACAPw==" [1316880384] rfl (by decide)

/-! ## C9: dry-run and empty batches are no-ops -/

/-- C9: with a non-empty batch, dry-run mode returns success and hands
nothing to the transport; with an empty batch every mode is a success
without a network call — for each of the three bulk operations. -/
theorem bulk_dry_run_and_empty_no_op (index : String)
    (docs : List ElasticsearchDoc) (tombs : List TombstoneDoc)
    (ids : List String) (dr : Bool)
    (transport : EsCall → Option BulkResponse) :
    bulkIndex index docs true transport = ([], Except.ok ()) ∧
    bulkIndex index [] dr transport = ([], Except.ok ()) ∧
    bulkIndexTombstones index tombs true transport = ([], Except.ok ()) ∧
    bulkIndexTombstones index [] dr transport = ([], Except.ok ()) ∧
    bulkDelete index ids true transport = ([], Except.ok ()) ∧
    bulkDelete index [] dr transport = ([], Except.ok ()) := by
  refine ⟨?_, rfl, ?_, rfl, ?_, rfl⟩
  · cases docs <;> simp [bulkIndex]
  · cases tombs <;> simp [bulkIndexTombstones]
  · cases ids <;> simp [bulkDelete]

/-! ## C7: 404-tolerant bulk delete -/

/-- C7: in live mode with at least one non-empty identifier, `bulkDelete`
succeeds when every per-item error carries status 404 (idempotent
delete), fails when some item error has another status (`errors` flag
set, as Elasticsearch does when an item errs), and fails on transport
failure. -/
theorem bulkDelete_tolerates_not_found (index : String) (ids : List String)
    (respOk respBad : BulkResponse)
    (hids : ∃ i ∈ ids, i ≠ "")
    (hok1 : respOk.isError = false)
    (hok2 : ∀ item ∈ respOk.items, ∀ d ∈ item,
      d.error.isSome → d.status = 404)
    (hbad1 : respBad.isError = false)
    (hbad2 : respBad.errors = true)
    (hbad3 : ∃ item ∈ respBad.items, ∃ d ∈ item,
      d.error.isSome ∧ d.status ≠ 404) :
    (bulkDelete index ids false (fun _ => some respOk)).2 = Except.ok () ∧
    (bulkDelete index ids false (fun _ => some respBad)).2 =
      Except.error
        "bulk delete failed: some documents had errors (see logs for details)" ∧
    (bulkDelete index ids false (fun _ => none)).2 =
      Except.error "bulk delete request failed" := by
  obtain ⟨i, hi, hni⟩ := hids
  have hne : ids ≠ [] := List.ne_nil_of_mem hi
  have hvalid : ¬ (∀ a ∈ ids, a = "") := fun hall => hni (hall i hi)
  have hreal_ok : hasRealErrors respOk.items = false := by
    unfold hasRealErrors
    refine List.any_eq_false.mpr ?_
    intro item hitem hany
    rw [List.any_eq_true] at hany
    obtain ⟨d, hd, hpd⟩ := hany
    rw [Bool.and_eq_true] at hpd
    have h404 := hok2 item hitem d hd hpd.1
    rw [h404] at hpd
    simp at hpd
  have hreal_bad : hasRealErrors respBad.items = true := by
    unfold hasRealErrors
    rw [List.any_eq_true]
    obtain ⟨item, hitem, d, hd, he, hs⟩ := hbad3
    refine ⟨item, hitem, ?_⟩
    rw [List.any_eq_true]
    exact ⟨d, hd, by simp [he, hs]⟩
  refine ⟨?_, ?_, ?_⟩ <;>
    simp [bulkDelete, hne, hvalid, hok1, hreal_ok, hbad1, hbad2, hreal_bad]

/-- C7 witness: one identifier; a response whose single item error has
status 404 succeeds, one with status 500 fails, and a transport failure
fails. -/
theorem bulkDelete_tolerates_not_found_witness :
    (bulkDelete "posts" ["at://a"] false
      (fun _ => some ⟨false, true, [[⟨some ("x", "not found"), 404⟩]]⟩)).2 =
        Except.ok () ∧
    (bulkDelete "posts" ["at://a"] false
      (fun _ => some ⟨false, true, [[⟨some ("x", "boom"), 500⟩]]⟩)).2 =
        Except.error
          "bulk delete failed: some documents had errors (see logs for details)" ∧
    (bulkDelete "posts" ["at://a"] false (fun _ => none)).2 =
      Except.error "bulk delete request failed" := by
  exact bulkDelete_tolerates_not_found "posts" ["at://a"]
    ⟨false, true, [[⟨some ("x", "not found"), 404⟩]]⟩
    ⟨false, true, [[⟨some ("x", "boom"), 500⟩]]⟩
    ⟨"at://a", by simp, by decide⟩ rfl
    (by
      intro item hitem d hd _
      simp at hitem
      subst hitem
      simp at hd
      subst hd
      rfl)
    rfl rfl
    ⟨[⟨some ("x", "boom"), 500⟩], by simp,
      ⟨some ("x", "boom"), 500⟩, by simp, by simp, by decide⟩

/-! ## C1: the active ingestion loop (`main` in `src/ingest/main.go`) -/

/-- One scanned row of `enriched_posts`. -/
structure MainRow where
  atURI      : String
  did        : String
  rawPost    : Option Json
  inferences : Option Json

/-- What the body of the row loop does with one row. -/
inductive MainRowOutcome where
  | doc (d : ElasticsearchDoc)
  | skippedDelete
  | dropped
  deriving DecidableEq, Repr

/-- The row-loop body of `main`: parse `raw_post`; missing
message/commit/record means `continue`; `operation == "delete"`
increments `skippedCount` and continues (the TODO above that branch says
deletions should instead be handled); otherwise build the document.  The
inline embedding block of `main.go` is the same computation as
`parseInferences`, so it is `embList`. -/
def mainProcessRow (row : MainRow) (now : Nat) : MainRowOutcome :=
  match row.rawPost with
  | none => MainRowOutcome.dropped
  | some j =>
    match j.objFields with
    | none => MainRowOutcome.dropped
    | some rawPost =>
      match lookupObj rawPost "message" with
      | none => MainRowOutcome.dropped
      | some message =>
        match lookupObj message "commit" with
        | none => MainRowOutcome.dropped
        | some commit =>
          if (lookupStr commit "operation").getD "" = "delete" then
            MainRowOutcome.skippedDelete
          else
            match lookupObj commit "record" with
            | none => MainRowOutcome.dropped
            | some record =>
              let hm? := lookupObj rawPost "hydrated_metadata"
              let threadRootPost := match hm? with
                | some hm =>
                    match lookupObj hm "reply_post" with
                    | some rp => (lookupStr rp "uri").getD ""
                    | none => ""
                | none => ""
              let threadParentPost := match hm? with
                | some hm =>
                    match lookupObj hm "parent_post" with
                    | some pp => (lookupStr pp "uri").getD ""
                    | none => ""
                | none => ""
              let quotePost := match hm? with
                | some hm =>
                    match lookupObj hm "quote_post" with
                    | some qp => (lookupStr qp "uri").getD ""
                    | none => ""
                | none => ""
              MainRowOutcome.doc
                ⟨row.atURI, row.did, (lookupStr record "text").getD "",
                 (lookupStr record "createdAt").getD "", threadRootPost,
                 threadParentPost, quotePost, embList row.inferences, now⟩

/-- The batching loop of `main`: documents accumulate in `batch`; a full
batch (`batchSize = 100`) is flushed with `bulkIndex` to the `posts`
index; after the loop a non-empty remainder is flushed.  Returned are the
`client.Bulk` invocations issued and the final `skippedCount`.  `main`
contains no call to `bulkIndexTombstones` or `bulkDelete`. -/
def mainIngest (rows : List MainRow) (now : Nat) : List EsCall × Nat :=
  let step := fun (acc : List ElasticsearchDoc × List EsCall × Nat)
      (row : MainRow) =>
    match mainProcessRow row now with
    | MainRowOutcome.doc d =>
        let batch' := acc.1 ++ [d]
        if 100 ≤ batch'.length then
          ([], acc.2.1 ++ [EsCall.bulkIndexReq "posts" batch'], acc.2.2)
        else (batch', acc.2.1, acc.2.2)
    | MainRowOutcome.skippedDelete => (acc.1, acc.2.1, acc.2.2 + 1)
    | MainRowOutcome.dropped => (acc.1, acc.2.1, acc.2.2)
  let fin := rows.foldl step ([], [], 0)
  (if fin.1 = [] then fin.2.1
   else fin.2.1 ++ [EsCall.bulkIndexReq "posts" fin.1], fin.2.2)

/-- Does a bulk invocation target the content index with index actions
(as opposed to a tombstone insert or a delete)? -/
def EsCall.isBulkIndexReq : EsCall → Bool
  | EsCall.bulkIndexReq _ _ => true
  | _ => false

/-- The create event of the end-to-end scenario: text "Hello, world!". -/
def helloCreateEvent : Json :=
  Json.obj [("message", Json.obj [("commit", Json.obj
    [("operation", Json.str "create"),
     ("record", Json.obj
       [("text", Json.str "Hello, world!"),
        ("createdAt", Json.str "2025-09-09T00:00:00Z")])])])]

/-- The delete event for the same identifier. -/
def helloDeleteEvent : Json :=
  Json.obj [("message", Json.obj [("commit", Json.obj
    [("operation", Json.str "delete")])])]

/-- C1 (code_bug): running the active loop over the archive of the
end-to-end scenario — one create row (text "Hello, world!") and one
delete row for the same identifier — issues exactly one content-index
bulk write holding the create document and counts the delete row as
skipped; no tombstone write and no delete request exist anywhere in the
emitted calls, contradicting the claim (the TODO at the skip branch
records that deletions were meant to be handled). -/
theorem main_loop_discards_deletes (now : Nat) :
    mainIngest
      [⟨"at://did:plc:test123/app.bsky.feed.post/abc123", "did:plc:test123",
        some helloCreateEvent, some (Json.obj [])⟩,
       ⟨"at://did:plc:test123/app.bsky.feed.post/abc123", "did:plc:test123",
        some helloDeleteEvent, some (Json.obj [])⟩] now =
      ([EsCall.bulkIndexReq "posts"
          [⟨"at://did:plc:test123/app.bsky.feed.post/abc123",
            "did:plc:test123", "Hello, world!", "2025-09-09T00:00:00Z",
            "", "", "", [], now⟩]], 1) ∧
    ((mainIngest
      [⟨"at://did:plc:test123/app.bsky.feed.post/abc123", "did:plc:test123",
        some helloCreateEvent, some (Json.obj [])⟩,
       ⟨"at://did:plc:test123/app.bsky.feed.post/abc123", "did:plc:test123",
        some helloDeleteEvent, some (Json.obj [])⟩] now).1.all
      EsCall.isBulkIndexReq) = true := by
  have h : mainIngest
      [⟨"at://did:plc:test123/app.bsky.feed.post/abc123", "did:plc:test123",
        some helloCreateEvent, some (Json.obj [])⟩,
       ⟨"at://did:plc:test123/app.bsky.feed.post/abc123", "did:plc:test123",
        some helloDeleteEvent, some (Json.obj [])⟩] now =
      ([EsCall.bulkIndexReq "posts"
          [⟨"at://did:plc:test123/app.bsky.feed.post/abc123",
            "did:plc:test123", "Hello, world!", "2025-09-09T00:00:00Z",
            "", "", "", [], now⟩]], 1) := rfl
  refine ⟨h, ?_⟩
  rw [h]
  rfl

/-! ## Spooler: file discovery (C8)

`sort.Strings` sorts ascending in Go's string order — lexicographic on
bytes.  `charListLe` is that order on the character lists; the sort is
modelled with insertion sort, whose contract (sorted ascending, same
members) is the one `sort.Strings` guarantees. -/

def charListLe : List Char → List Char → Bool
  | [], _ => true
  | _ :: _, [] => false
  | a :: as, b :: bs =>
      if a.toNat < b.toNat then true
      else if b.toNat < a.toNat then false
      else charListLe as bs

def strLe (a b : String) : Bool := charListLe a.toList b.toList

/-- Go's `a <= b` on strings, as a proposition. -/
def strLeR (a b : String) : Prop := strLe a b = true

instance : DecidableRel strLeR := fun a b => by
  unfold strLeR
  infer_instance

theorem charListLe_total : ∀ as bs,
    charListLe as bs = true ∨ charListLe bs as = true := by
  intro as
  induction as with
  | nil => intro bs; left; rfl
  | cons a as ih =>
      intro bs
      cases bs with
      | nil => right; rfl
      | cons b bs =>
          simp only [charListLe]
          by_cases h1 : a.toNat < b.toNat
          · left; simp [h1]
          · by_cases h2 : b.toNat < a.toNat
            · right; simp [h1, h2]
            · rcases ih bs with h | h
              · left; simp [h1, h2, h]
              · right; simp [h1, h2, h]

theorem charListLe_trans : ∀ as bs cs, charListLe as bs = true →
    charListLe bs cs = true → charListLe as cs = true := by
  intro as
  induction as with
  | nil => intro bs cs _ _; rfl
  | cons a as ih =>
      intro bs cs h1 h2
      cases bs with
      | nil => simp [charListLe] at h1
      | cons b bs =>
          cases cs with
          | nil => simp [charListLe] at h2
          | cons c cs =>
              simp only [charListLe] at h1 h2 ⊢
              by_cases hab : a.toNat < b.toNat
              · by_cases hbc : b.toNat < c.toNat
                · simp [show a.toNat < c.toNat by omega]
                · by_cases hcb : c.toNat < b.toNat
                  · simp [hbc, hcb] at h2
                  · simp [show a.toNat < c.toNat by omega]
              · by_cases hba : b.toNat < a.toNat
                · simp [hab, hba] at h1
                · by_cases hbc : b.toNat < c.toNat
                  · simp [show a.toNat < c.toNat by omega]
                  · by_cases hcb : c.toNat < b.toNat
                    · simp [hbc, hcb] at h2
                    · simp only [hab, hba, if_neg, if_false] at h1
                      simp only [hbc, hcb, if_neg, if_false] at h2
                      simp [show ¬ a.toNat < c.toNat by omega,
                        show ¬ c.toNat < a.toNat by omega,
                        ih bs cs h1 h2]

instance : IsTotal String strLeR :=
  ⟨fun a b => charListLe_total a.toList b.toList⟩

instance : IsTrans String strLeR :=
  ⟨fun a b c => charListLe_trans a.toList b.toList c.toList⟩

/-- `sort.Strings`. -/
def sortStrings (l : List String) : List String :=
  List.insertionSort strLeR l

/-- `strings.HasSuffix` / `String.endsWith`, on character lists so that
it evaluates inside the kernel. -/
def strEndsWith (s suf : String) : Bool :=
  let as := s.toList
  let ss := suf.toList
  if ss.length ≤ as.length then decide (as.drop (as.length - ss.length) = ss)
  else false

/-- One `os.ReadDir` entry. -/
structure DirEntry where
  name  : String
  isDir : Bool
  deriving DecidableEq, Repr

/-- `LocalSpooler.discoverFiles`: keep non-directory entries whose name
ends in `.db.zip` and is marked neither processed nor failed, then sort
the names. -/
def discoverFilesLocal (entries : List DirEntry) (st : StateMap) :
    List String :=
  sortStrings ((entries.filter fun e =>
    !e.isDir && strEndsWith e.name ".db.zip" &&
    !isProcessed st e.name && !isFailed st e.name).map DirEntry.name)

/-- `filepath.Base`: empty path gives ".", trailing slashes are dropped,
an all-slash path gives "/", else the last component. -/
def pathBase (p : String) : String :=
  if p = "" then "."
  else
    let rcs := p.toList.reverse.dropWhile (fun c => c = '/')
    if rcs = [] then "/"
    else String.mk (rcs.takeWhile (fun c => c ≠ '/')).reverse

/-- `S3Spooler.discoverFiles`: the suffix and state checks are applied to
the base filename of each key; the surviving keys are sorted. -/
def discoverFilesS3 (keys : List String) (st : StateMap) : List String :=
  sortStrings (keys.filter fun key =>
    strEndsWith (pathBase key) ".db.zip" &&
    !isProcessed st (pathBase key) && !isFailed st (pathBase key))

/-- C8: discovery returns exactly the candidates with the `.db.zip`
suffix that are marked neither processed nor failed, sorted ascending in
Go's lexicographic string order — so a pass never re-emits a filename
already marked processed or failed.  Stated for both spooler variants
(the S3 variant applies the checks to the key's base filename). -/
theorem discovery_exact (entries : List DirEntry) (keys : List String)
    (st : StateMap) :
    (∀ x, x ∈ discoverFilesLocal entries st ↔
      (∃ e ∈ entries, e.name = x ∧ e.isDir = false ∧
        strEndsWith x ".db.zip" = true ∧
        isProcessed st x = false ∧ isFailed st x = false)) ∧
    List.Sorted strLeR (discoverFilesLocal entries st) ∧
    (∀ x, isProcessed st x = true ∨ isFailed st x = true →
      x ∉ discoverFilesLocal entries st) ∧
    (∀ k, k ∈ discoverFilesS3 keys st ↔
      (k ∈ keys ∧ strEndsWith (pathBase k) ".db.zip" = true ∧
        isProcessed st (pathBase k) = false ∧
        isFailed st (pathBase k) = false)) ∧
    List.Sorted strLeR (discoverFilesS3 keys st) ∧
    (∀ k, isProcessed st (pathBase k) = true ∨
        isFailed st (pathBase k) = true →
      k ∉ discoverFilesS3 keys st) := by
  have hmemL : ∀ x, x ∈ discoverFilesLocal entries st ↔
      (∃ e ∈ entries, e.name = x ∧ e.isDir = false ∧
        strEndsWith x ".db.zip" = true ∧
        isProcessed st x = false ∧ isFailed st x = false) := by
    intro x
    unfold discoverFilesLocal sortStrings
    rw [List.mem_insertionSort, List.mem_map]
    constructor
    · rintro ⟨e, he, rfl⟩
      rw [List.mem_filter] at he
      refine ⟨e, he.1, rfl, ?_⟩
      have := he.2
      simp only [Bool.and_eq_true, Bool.not_eq_true'] at this
      exact ⟨this.1.1.1, this.1.1.2, this.1.2, this.2⟩
    · rintro ⟨e, he, rfl, hdir, hsuf, hproc, hfail⟩
      refine ⟨e, ?_, rfl⟩
      rw [List.mem_filter]
      refine ⟨he, ?_⟩
      simp [hdir, hsuf, hproc, hfail]
  have hmemS : ∀ k, k ∈ discoverFilesS3 keys st ↔
      (k ∈ keys ∧ strEndsWith (pathBase k) ".db.zip" = true ∧
        isProcessed st (pathBase k) = false ∧
        isFailed st (pathBase k) = false) := by
    intro k
    unfold discoverFilesS3 sortStrings
    rw [List.mem_insertionSort, List.mem_filter]
    constructor
    · rintro ⟨hk, hcond⟩
      simp only [Bool.and_eq_true, Bool.not_eq_true'] at hcond
      exact ⟨hk, hcond.1.1, hcond.1.2, hcond.2⟩
    · rintro ⟨hk, hsuf, hproc, hfail⟩
      exact ⟨hk, by simp [hsuf, hproc, hfail]⟩
  refine ⟨hmemL, List.sorted_insertionSort strLeR _, ?_, hmemS,
    List.sorted_insertionSort strLeR _, ?_⟩
  · intro x hx hmem
    rw [hmemL x] at hmem
    obtain ⟨e, _, _, _, _, hproc, hfail⟩ := hmem
    rcases hx with h | h
    · rw [h] at hproc; cases hproc
    · rw [h] at hfail; cases hfail
  · intro k hk hmem
    rw [hmemS k] at hmem
    obtain ⟨_, _, hproc, hfail⟩ := hmem
    rcases hk with h | h
    · rw [h] at hproc; cases hproc
    · rw [h] at hfail; cases hfail

/-- The directory listing of the C8 witness. -/
def witnessEntries : List DirEntry :=
  [⟨"b.db.zip", false⟩, ⟨"a2.db.zip", false⟩, ⟨"a1.db.zip", false⟩,
   ⟨"notes.txt", false⟩, ⟨"sub.db.zip", true⟩, ⟨"e.db.zip", false⟩]

/-- The processing state of the C8 witness: one processed file, one
failed file. -/
def witnessState : StateMap :=
  [("b.db.zip", ⟨"b.db.zip", FileStatus.processed, 0, ""⟩),
   ("e.db.zip", ⟨"e.db.zip", FileStatus.failed, 0, "x"⟩)]

/-- C8 witness: a directory with processed, failed, non-matching,
directory and fresh entries, and an S3 listing with prefixed keys. -/
theorem discovery_exact_witness :
    discoverFilesLocal witnessEntries witnessState =
      ["a1.db.zip", "a2.db.zip"] ∧
    "b.db.zip" ∉ discoverFilesLocal witnessEntries witnessState ∧
    discoverFilesS3
      ["exports/b.db.zip", "exports/a.db.zip", "exports/n.txt"]
      witnessState = ["exports/a.db.zip"] := by
  refine ⟨by decide, ?_, by decide⟩
  exact (discovery_exact witnessEntries
    ["exports/b.db.zip", "exports/a.db.zip", "exports/n.txt"]
    witnessState).2.2.1 "b.db.zip" (Or.inl (by decide))

/-! ## Spooler: per-file processing under cancellation (C3)

The cancellable context is a poll budget `c`: cancellation checks are
numbered by a running counter, and the k-th check reports "cancelled"
exactly when `c ≤ k`.  `processFiles` checks once before each file;
`processDatabase` checks once before each row and returns the error
`"context cancelled during database processing"` when cancelled, which
`processFile` wraps as `"failed to process database: ..."` before
`processFiles` hands it to `MarkFailed`.  When the loop returns, the
deferred `close(rowChan)` in `Start` closes the channel. -/

/-- One row of the `enriched_posts` table as the spooler streams it
(payloads still raw text). -/
structure SQLiteRow where
  atURI          : String
  did            : String
  rawPost        : String
  inferences     : String
  sourceFilename : String
  deriving DecidableEq, Repr

/-- An archive file after extraction: its name and the rows of its
embedded database. -/
structure SpoolFile where
  name : String
  rows : List SQLiteRow
  deriving DecidableEq, Repr

/-- State-store marking performed by `processFiles` for one file. -/
inductive FileMark where
  | processed
  | failedMark (msg : String)
  deriving DecidableEq, Repr

/-- `processDatabase`: before each row, one cancellation check; on
cancellation the scan stops with an error; otherwise the row goes to the
channel.  Returns the result, the rows sent, and the new check
counter. -/
def processDatabaseGo (c : Nat) (polls : Nat) :
    List SQLiteRow → Except String Unit × List SQLiteRow × Nat
  | [] => (Except.ok (), [], polls)
  | r :: rest =>
      if c ≤ polls then
        (Except.error "context cancelled during database processing",
         [], polls)
      else
        let pd := processDatabaseGo c (polls + 1) rest
        (pd.1, r :: pd.2.1, pd.2.2)

/-- `processFiles`: before each file, one cancellation check — on
cancellation the loop returns with no mark for the remaining files;
otherwise the file is processed and marked processed on success or
failed (with the wrapped error) on any failure, including
cancellation mid-scan. -/
def processFilesGo (c : Nat) (polls : Nat) :
    List SpoolFile → List (String × FileMark) × List SQLiteRow × Nat
  | [] => ([], [], polls)
  | f :: rest =>
      if c ≤ polls then ([], [], polls)
      else
        let pd := processDatabaseGo c (polls + 1) f.rows
        let tail := processFilesGo c pd.2.2 rest
        match pd.1 with
        | Except.ok _ =>
            ((f.name, FileMark.processed) :: tail.1,
             pd.2.1 ++ tail.2.1, tail.2.2)
        | Except.error e =>
            ((f.name, FileMark.failedMark
                ("failed to process database: " ++ e)) :: tail.1,
             pd.2.1 ++ tail.2.1, tail.2.2)

theorem processDatabaseGo_cancelled (c : Nat) :
    ∀ (rows : List SQLiteRow) (polls : Nat), polls ≤ c →
    c < polls + rows.length →
    (processDatabaseGo c polls rows).1 =
      Except.error "context cancelled during database processing" := by
  intro rows
  induction rows with
  | nil =>
      intro polls h1 h2
      simp only [List.length_nil] at h2
      omega
  | cons r rest ih =>
      intro polls h1 h2
      simp only [List.length_cons] at h2
      unfold processDatabaseGo
      by_cases hc : c ≤ polls
      · simp [hc]
      · have hle : polls + 1 ≤ c := by omega
        have hlt : c < (polls + 1) + rest.length := by omega
        simp [hc, ih (polls + 1) hle hlt]

theorem processDatabaseGo_ok (c : Nat) :
    ∀ (rows : List SQLiteRow) (polls : Nat), polls + rows.length ≤ c →
    (processDatabaseGo c polls rows).1 = Except.ok () := by
  intro rows
  induction rows with
  | nil => intro polls _; rfl
  | cons r rest ih =>
      intro polls h
      unfold processDatabaseGo
      have hc : ¬ c ≤ polls := by
        simp only [List.length_cons] at h
        omega
      have h' : (polls + 1) + rest.length ≤ c := by
        simp only [List.length_cons] at h
        omega
      simp [hc, ih (polls + 1) h']

/-- C3 counterexample: cancellation budget 2, one file of two rows.  The
pre-file check passes (count 0), the first row streams (count 1), the
check before the second row fires — and the in-flight file ends up
MARKED FAILED with the cancellation error, contrary to the claim that it
is marked neither processed nor failed. -/
theorem spooler_cancellation_marks_in_flight_file_failed :
    processFilesGo 2 0
      [⟨"a.db.zip", [⟨"at://1", "d", "{}", "{}", "a.db.zip"⟩,
                     ⟨"at://2", "d", "{}", "{}", "a.db.zip"⟩]⟩] =
      ([("a.db.zip", FileMark.failedMark
          ("failed to process database: " ++
           "context cancelled during database processing"))],
       [⟨"at://1", "d", "{}", "{}", "a.db.zip"⟩], 2) := by
  decide

/-- C3 amended: cancellation firing at the check before a file starts
leaves that file unmarked (so it stays eligible for rediscovery);
cancellation firing while the file's rows are being streamed marks the
file failed with the wrapped cancellation error (removing it from
future discovery); only a full stream marks it processed.  The channel
closes when the loop returns in every case. -/
theorem spooler_cancellation_marks (c polls : Nat) (name : String)
    (rows : List SQLiteRow) :
    (c ≤ polls → processFilesGo c polls [⟨name, rows⟩] = ([], [], polls)) ∧
    (polls < c → c ≤ polls + rows.length →
      (processFilesGo c polls [⟨name, rows⟩]).1 =
        [(name, FileMark.failedMark
          ("failed to process database: " ++
           "context cancelled during database processing"))]) ∧
    (polls + rows.length < c →
      (processFilesGo c polls [⟨name, rows⟩]).1 =
        [(name, FileMark.processed)]) := by
  refine ⟨?_, ?_, ?_⟩
  · intro hc
    unfold processFilesGo
    simp [hc]
  · intro h1 h2
    have hc : ¬ c ≤ polls := by omega
    have herr := processDatabaseGo_cancelled c rows (polls + 1)
      (by omega) (by omega)
    unfold processFilesGo
    simp [hc, herr]
    rfl
  · intro h
    have hc : ¬ c ≤ polls := by omega
    have hok := processDatabaseGo_ok c rows (polls + 1) (by omega)
    unfold processFilesGo
    simp [hc, hok]
    rfl

/-- C3 amended witness: budget 0 leaves the file unmarked; budget 2
(cancellation between the two rows) marks it failed; budget 5 marks it
processed. -/
theorem spooler_cancellation_marks_witness :
    processFilesGo 0 0
      [⟨"a.db.zip", [⟨"at://1", "d", "{}", "{}", "a.db.zip"⟩,
                     ⟨"at://2", "d", "{}", "{}", "a.db.zip"⟩]⟩] =
      ([], [], 0) ∧
    (processFilesGo 2 0
      [⟨"a.db.zip", [⟨"at://1", "d", "{}", "{}", "a.db.zip"⟩,
                     ⟨"at://2", "d", "{}", "{}", "a.db.zip"⟩]⟩]).1 =
      [("a.db.zip", FileMark.failedMark
        ("failed to process database: " ++
         "context cancelled during database processing"))] ∧
    (processFilesGo 5 0
      [⟨"a.db.zip", [⟨"at://1", "d", "{}", "{}", "a.db.zip"⟩,
                     ⟨"at://2", "d", "{}", "{}", "a.db.zip"⟩]⟩]).1 =
      [("a.db.zip", FileMark.processed)] := by
  refine ⟨?_, ?_, ?_⟩
  · exact (spooler_cancellation_marks 0 0 "a.db.zip"
      [⟨"at://1", "d", "{}", "{}", "a.db.zip"⟩,
       ⟨"at://2", "d", "{}", "{}", "a.db.zip"⟩]).1 (by decide)
  · exact (spooler_cancellation_marks 2 0 "a.db.zip"
      [⟨"at://1", "d", "{}", "{}", "a.db.zip"⟩,
       ⟨"at://2", "d", "{}", "{}", "a.db.zip"⟩]).2.1 (by decide) (by decide)
  · exact (spooler_cancellation_marks 5 0 "a.db.zip"
      [⟨"at://1", "d", "{}", "{}", "a.db.zip"⟩,
       ⟨"at://2", "d", "{}", "{}", "a.db.zip"⟩]).2.2 (by decide)

end GreenEarth
